import Mathlib

/-!
Shallow embedding of the meeting-transcription pipeline:
provider selection (backend/src/config/ai-services.js), response parsing and
post-processing (SpeechToTextService), transcript speaker statistics
(Transcript model), and the transcription job controller
(TranscriptionController).  Times and confidences are modelled as exact
rationals; JS strings as Lean strings.
-/

/-- Word-level timestamp record passed through by the parsers (provider `words`
arrays are opaque pass-through data in the source). -/
structure Word where
  word : String
  startTime : ℚ
  endTime : ℚ
  confidence : ℚ
  deriving DecidableEq, Repr

/-- Canonical segment produced by the parsers and transformed by
post-processing.  `id` is a string (numeric ids of parsed segments are
rendered with `toString`, paragraph-break ids are `break_i` as in the source);
`type` is `some "paragraph_break"` exactly on inserted break markers (plain
segments carry no `type` field in the source, modelled as `none`). -/
structure Segment where
  id : String
  text : String
  startTime : ℚ
  endTime : ℚ
  confidence : ℚ
  speaker : String
  type : Option String := none
  words : List Word := []
  deriving DecidableEq, Repr

/-! ### Text cleaning (SpeechToTextService.cleanTranscriptText)

`text.replace(/\s+/g, ' ').replace(/[^\w\s\p{P}]/gu, '').trim()`

The JS character classes are modelled on characters: `\s` as ASCII whitespace
(the general theorems below do not depend on the exact whitespace set beyond
`' '` being whitespace), `\w` as `[A-Za-z0-9_]`, and `\p{P}` restricted to the
ASCII punctuation of the Unicode P category. -/

/-- Model of the JS `\s` class (ASCII part). -/
def isWsJS (c : Char) : Bool :=
  c = ' ' || c = '\t' || c = '\n' || c = '\r' || c = '\x0b' || c = '\x0c'

/-- Model of the JS `\w` class. -/
def isWordJS (c : Char) : Bool :=
  ('a' ≤ c && c ≤ 'z') || ('A' ≤ c && c ≤ 'Z') || ('0' ≤ c && c ≤ '9') || c = '_'

/-- Model of the JS `\p{P}` class (ASCII part: the ASCII characters of Unicode
general category P). -/
def isPunctJS (c : Char) : Bool :=
  c = '!' || c = '"' || c = '#' || c = '%' || c = '&' || c = '\'' ||
  c = '(' || c = ')' || c = '*' || c = ',' || c = '-' || c = '.' ||
  c = '/' || c = ':' || c = ';' || c = '?' || c = '@' || c = '[' ||
  c = '\\' || c = ']' || c = '_' || c = '\x7b' || c = '\x7d'

/-- A character survives the second `replace` iff it is a word character,
whitespace, or punctuation. -/
def keepJS (c : Char) : Bool := isWordJS c || isWsJS c || isPunctJS c

/-- Model of `replace(/\s+/g, ' ')`: each maximal whitespace run becomes one space. -/
def collapseWs : List Char → List Char
  | [] => []
  | [c] => if isWsJS c then [' '] else [c]
  | c :: d :: rest =>
    if isWsJS c then
      if isWsJS d then collapseWs (d :: rest)
      else ' ' :: collapseWs (d :: rest)
    else c :: collapseWs (d :: rest)

/-- Left part of JS `String.trim`. -/
def trimLeftJS (l : List Char) : List Char := l.dropWhile isWsJS

/-- Right part of JS `String.trim`. -/
def trimRightJS (l : List Char) : List Char := (l.reverse.dropWhile isWsJS).reverse

/-- JS `String.trim`. -/
def trimJS (l : List Char) : List Char := trimRightJS (trimLeftJS l)

/-- Core of `SpeechToTextService.cleanTranscriptText`, on the character list. -/
def cleanChars (l : List Char) : List Char := trimJS (List.filter keepJS (collapseWs l))

/-- Source method `SpeechToTextService.cleanTranscriptText`. -/
def cleanTranscriptText (s : String) : String := ⟨cleanChars s.data⟩

/-- JS `String.trim` on strings (used by the Whisper parser on segment text). -/
def jsStringTrim (s : String) : String := ⟨trimJS s.data⟩

/-! ### Paragraph breaks (SpeechToTextService.addParagraphBreaks) -/

/-- The break marker object pushed by `addParagraphBreaks` between segments
`s` and `t` at loop index `i`. -/
def mkBreak (i : ℕ) (s t : Segment) : Segment :=
  { id := "break_" ++ toString i
    text := "\n\n"
    startTime := s.endTime
    endTime := t.startTime
    confidence := 1
    speaker := "system"
    type := some "paragraph_break"
    words := [] }

/-- The indexed loop of `addParagraphBreaks`: pushes the current segment and,
when the gap to the next segment exceeds the threshold, a break marker. -/
def addBreaksAux : List Segment → ℕ → ℚ → List Segment
  | [], _, _ => []
  | [s], _, _ => [s]
  | s :: t :: rest, i, th =>
    if t.startTime - s.endTime > th then
      s :: mkBreak i s t :: addBreaksAux (t :: rest) (i + 1) th
    else
      s :: addBreaksAux (t :: rest) (i + 1) th

/-- Source method `SpeechToTextService.addParagraphBreaks(segments, silenceThreshold = 3)`. -/
def addParagraphBreaks (segments : List Segment) (silenceThreshold : ℚ := 3) :
    List Segment :=
  addBreaksAux segments 0 silenceThreshold

/-! ### Short-segment merging (SpeechToTextService.mergeShortSegments) -/

/-- The loop of `mergeShortSegments`: `cur` is the running `currentMerge`.  A
segment shorter than `minDuration` that is not a paragraph break is absorbed
into the running merge (text joined by one space, `endTime` extended,
confidence pairwise averaged); any other segment flushes the running merge and
is emitted as-is. -/
def mergeAux (minDuration : ℚ) : Option Segment → List Segment → List Segment
  | cur, [] => match cur with | some c => [c] | none => []
  | cur, s :: rest =>
    if s.endTime - s.startTime < minDuration ∧ s.type ≠ some "paragraph_break" then
      match cur with
      | none => mergeAux minDuration (some s) rest
      | some c =>
        mergeAux minDuration
          (some { c with
                    text := c.text ++ " " ++ s.text
                    endTime := s.endTime
                    confidence := (c.confidence + s.confidence) / 2 }) rest
    else
      match cur with
      | none => s :: mergeAux minDuration none rest
      | some c => c :: s :: mergeAux minDuration none rest

/-- Source method `SpeechToTextService.mergeShortSegments(segments, minDuration = 2)`. -/
def mergeShortSegments (segments : List Segment) (minDuration : ℚ := 2) :
    List Segment :=
  mergeAux minDuration none segments

/-! ### Post-processing pipeline (SpeechToTextService.postProcessTranscription)

With default options the source applies, in this order: text cleanup,
`addParagraphBreaks` (threshold 3), `mergeShortSegments` (minimum duration 2),
and `addPunctuation` (a stub returning its input unchanged). -/

/-- Options bag of `postProcessTranscription`; the source checks each flag with
`!== false`, so a missing flag means enabled. -/
structure PostProcessOptions where
  cleanText : Bool := true
  addParagraphs : Bool := true
  mergeShortSegments : Bool := true
  addPunctuation : Bool := true
  deriving Repr

/-- The per-segment text cleanup step. -/
def cleanSegment (s : Segment) : Segment := { s with text := cleanTranscriptText s.text }

/-- The slice of the transcription result read and written by
`postProcessTranscription`. -/
structure TranscriptionResultRec where
  segments : List Segment
  text : String
  deriving DecidableEq, Repr

/-- Source method `SpeechToTextService.postProcessTranscription(result, options)`. -/
def postProcessTranscription (result : TranscriptionResultRec)
    (options : PostProcessOptions) : TranscriptionResultRec :=
  let r1 :=
    if options.cleanText then
      let segs := result.segments.map cleanSegment
      { segments := segs, text := String.intercalate " " (segs.map Segment.text) }
    else result
  let r2 :=
    if options.addParagraphs then
      { r1 with segments := addParagraphBreaks r1.segments 3 }
    else r1
  let r3 :=
    if options.mergeShortSegments then
      { r2 with segments := mergeShortSegments r2.segments 2 }
    else r2
  -- addPunctuation returns the segment list unchanged in the source
  r3

/-! ### Provider response parsers (SpeechToTextService.parse*)

JS truthiness on optional numeric fields: `x || d` yields `d` when `x` is
absent or `0`; likewise `x ? a : b` picks `b` when `x` is `0`.  Optional
fields of raw responses are `Option`s; an absent array field is `none`
(an empty array is truthy in JS and therefore `some []`). -/

/-- JS `x || d` for an optional numeric field. -/
def jsOrQ (v : Option ℚ) (d : ℚ) : ℚ :=
  match v with
  | some x => if x = 0 then d else x
  | none => d

/-- JS `x || d` for an optional string field. -/
def jsOrStr (v : Option String) (d : String) : String :=
  match v with
  | some s => if s = "" then d else s
  | none => d

/-- One FPT utterance. -/
structure FPTUtterance where
  transcript : String
  startTime : Option ℚ
  endTime : Option ℚ
  confidence : Option ℚ
  speaker : Option String
  words : Option (List Word)
  deriving Repr

/-- One FPT hypothesis. -/
structure FPTHypothesis where
  transcript : String
  confidence : Option ℚ
  utterances : Option (List FPTUtterance)
  deriving Repr

/-- FPT AI raw response body. -/
structure FPTResponse where
  hypotheses : List FPTHypothesis
  deriving Repr

/-- Source method `SpeechToTextService.parseFPTResponse`. -/
def parseFPTResponse (data : FPTResponse) : List Segment :=
  match data.hypotheses with
  | [] => []
  | h :: _ =>
    match h.utterances with
    | some us =>
      us.enum.map fun p =>
        { id := toString p.1
          text := p.2.transcript
          startTime := jsOrQ p.2.startTime 0
          endTime := jsOrQ p.2.endTime 0
          confidence := jsOrQ p.2.confidence (1/2)
          speaker := jsOrStr p.2.speaker "Speaker 1"
          words := p.2.words.getD [] }
    | none =>
      [{ id := "0"
         text := h.transcript
         startTime := 0
         endTime := 0
         confidence := jsOrQ h.confidence (1/2)
         speaker := "Speaker 1"
         words := [] }]

/-- One Whisper verbose segment (`stop` models the source field named `end`). -/
structure WhisperSegment where
  text : String
  start : ℚ
  stop : ℚ
  avg_logprob : Option ℚ
  words : Option (List Word)
  deriving Repr

/-- Whisper verbose raw response body. -/
structure WhisperResponse where
  text : String
  segments : Option (List WhisperSegment)
  deriving Repr

/-- Source method `SpeechToTextService.parseWhisperResponse`.  Here `mexp` is the interpretation
of `Math.exp` (the source converts a nonzero `avg_logprob` with `Math.exp`);
every theorem below holds for any interpretation. -/
def parseWhisperResponse (mexp : ℚ → ℚ) (data : WhisperResponse) : List Segment :=
  match data.segments with
  | some segs =>
    segs.enum.map fun p =>
      { id := toString p.1
        text := jsStringTrim p.2.text
        startTime := p.2.start
        endTime := p.2.stop
        confidence :=
          match p.2.avg_logprob with
          | some l => if l = 0 then 4/5 else mexp l
          | none => 4/5
        speaker := "Speaker 1"
        words := p.2.words.getD [] }
  | none =>
    [{ id := "0"
       text := data.text
       startTime := 0
       endTime := 0
       confidence := 4/5
       speaker := "Speaker 1"
       words := [] }]

/-- The parsed `JSON.parse(result.json).NBest[0]` payload of an Azure result. -/
structure AzureNBest where
  confidence : ℚ
  deriving Repr

/-- One Azure recognition result (`offset`/`duration` in ticks; `json` is
`none` when `result.json` is falsy). -/
structure AzureResult where
  text : String
  offset : ℚ
  duration : ℚ
  json : Option AzureNBest
  deriving Repr

/-- The record returned by `parseAzureResult` (the source returns a plain
object without `id`/`words`). -/
structure AzureSegment where
  text : String
  startTime : ℚ
  endTime : ℚ
  confidence : ℚ
  speaker : String
  deriving DecidableEq, Repr

/-- Source method `SpeechToTextService.parseAzureResult`. -/
def parseAzureResult (result : AzureResult) : AzureSegment :=
  { text := result.text
    startTime := result.offset / 10000000
    endTime := (result.offset + result.duration) / 10000000
    confidence :=
      match result.json with
      | some j => j.confidence
      | none => 1/2
    speaker := "Speaker 1" }

/-! ### Provider registry and selection (backend/src/config/ai-services.js)

The registry entry keeps the fields read by the selector: `enabled`,
`config.languages` and `config.limits`.  `maxDuration` is optional (the
whisper entry declares none); the source treats a falsy `maxDuration` as
no ceiling. -/

/-- Size/duration ceilings of one STT service. -/
structure STTLimits where
  maxFileSize : ℚ
  maxDuration : Option ℚ
  deriving Repr

/-- One registry entry, with the fields consumed by the selector. -/
structure STTServiceEntry where
  name : String
  enabled : Bool
  languages : List String
  limits : STTLimits
  deriving Repr

/-- Source method `AIServiceManager.getAvailableSTTServices` (the source also projects to
`{name, languages, limits}`; the projection is kept implicit since entries
carry exactly those fields plus the flag). -/
def getAvailableSTTServices (services : List STTServiceEntry) : List STTServiceEntry :=
  services.filter (·.enabled)

/-- Model of `service.languages.includes(language) || service.languages.includes('auto')`. -/
def langCompatible (languages : List String) (language : String) : Bool :=
  languages.contains language || languages.contains "auto"

/-- Model of `fileSize <= limits.maxFileSize && (duration <= limits.maxDuration ||
!limits.maxDuration)` with JS semantics: an absent or zero `maxDuration`
disables the duration ceiling, and a comparison against an absent field is
false. -/
def limitsOK (limits : STTLimits) (fileSize duration : ℚ) : Bool :=
  decide (fileSize ≤ limits.maxFileSize) &&
    (match limits.maxDuration with
     | some m => decide (duration ≤ m) || decide (m = 0)
     | none => true)

/-- The fixed priority order of `getBestSTTService`. -/
def priorityOrder : List String := ["fpt", "whisper", "google", "azure"]

/-- Error message thrown when no service survives the filters. -/
def noSuitableMsg : String := "No suitable STT service available for the given requirements"

/-- Source method `AIServiceManager.getBestSTTService(language, fileSize, duration)`. -/
def getBestSTTService (services : List STTServiceEntry) (language : String)
    (fileSize duration : ℚ) : Except String String :=
  let available := getAvailableSTTServices services
  let compatible := available.filter fun s => langCompatible s.languages language
  let suitable := compatible.filter fun s => limitsOK s.limits fileSize duration
  match suitable with
  | [] => .error noSuitableMsg
  | s0 :: _ =>
    match priorityOrder.find? (fun n => suitable.any fun s => s.name == n) with
    | some n => .ok n
    | none => .ok s0.name

/-- Modelled from the spec: ceiling semantics as worded in the claim — a
present duration ceiling must not be exceeded, an absent ceiling never
filters. -/
def limitsOKSpec (limits : STTLimits) (fileSize duration : ℚ) : Bool :=
  decide (fileSize ≤ limits.maxFileSize) &&
    (match limits.maxDuration with
     | some m => decide (duration ≤ m)
     | none => true)

/-- Modelled from the spec: the selection procedure as the claim words it —
filter to enabled providers, then to language-compatible providers, then to
providers within their ceilings; return the first priority-order name among
the survivors, else the first survivor; fail when none survive. -/
def selectProviderSpec (services : List STTServiceEntry) (language : String)
    (fileSize duration : ℚ) : Except String String :=
  let survivors := services.filter fun s =>
    s.enabled && langCompatible s.languages language && limitsOKSpec s.limits fileSize duration
  match priorityOrder.find? (fun n => survivors.any fun s => s.name == n) with
  | some n => .ok n
  | none =>
    match survivors with
    | [] => .error noSuitableMsg
    | s0 :: _ => .ok s0.name

/-- The concrete STT registry of `ai-services.js`, as a function of the four
environment enablement flags: fpt (100 MB, 1 h), whisper (25 MB, no duration
ceiling), google (1 GB, 8 h), azure (1 GB, 4 h). -/
def mkSttServices (fptOn whisperOn googleOn azureOn : Bool) : List STTServiceEntry :=
  [ { name := "fpt", enabled := fptOn
      languages := ["vi-VN", "en-US"]
      limits := { maxFileSize := 104857600, maxDuration := some 3600 } }
  , { name := "whisper", enabled := whisperOn
      languages := ["auto", "en", "vi", "zh", "ja", "ko", "fr", "de", "es", "it", "pt", "ru"]
      limits := { maxFileSize := 26214400, maxDuration := none } }
  , { name := "google", enabled := googleOn
      languages := ["vi-VN", "en-US", "zh-CN", "ja-JP", "ko-KR"]
      limits := { maxFileSize := 1073741824, maxDuration := some 28800 } }
  , { name := "azure", enabled := azureOn
      languages := ["vi-VN", "en-US", "zh-CN", "ja-JP", "ko-KR"]
      limits := { maxFileSize := 1073741824, maxDuration := some 14400 } } ]

/-- Value of `retry.maxAttempts` declared in the STT service configuration of
`ai-services.js` (never consumed by the job controller). -/
def sttRetryMaxAttempts : ℕ := 3

/-! ### Speaker statistics (Transcript model, updateSpeakerStatistics)

The source iterates over `content.segments`, accumulating per-speaker totals
in an object keyed by `segment.speaker.id` (modelled as an association list in
first-seen order), then writes the aggregates back onto each speaker,
rounding `totalSpeakingTime` and `averageConfidence` with `Math.round`.
Speakers with no segments keep the zeroed reset values. -/

/-- One transcript segment as read by `updateSpeakerStatistics`
(`speaker` is `segment.speaker.id`). -/
structure TranscriptSegment where
  speaker : String
  startTime : ℚ
  endTime : ℚ
  confidence : ℚ
  deriving DecidableEq, Repr

/-- One transcript speaker with the statistics fields written by
`updateSpeakerStatistics`. -/
structure TranscriptSpeaker where
  id : String
  totalSpeakingTime : ℚ
  segmentCount : ℕ
  averageConfidence : ℚ
  deriving DecidableEq, Repr

/-- Accumulated per-speaker totals (`speakerStats[speakerId]`). -/
structure SpeakerStat where
  totalTime : ℚ
  segmentCount : ℕ
  totalConfidence : ℚ
  deriving DecidableEq, Repr

/-- Insert-or-update of the keyed accumulator object. -/
def statUpsert : List (String × SpeakerStat) → String → ℚ → ℚ →
    List (String × SpeakerStat)
  | [], id, dur, conf => [(id, ⟨dur, 1, conf⟩)]
  | (k, st) :: rest, id, dur, conf =>
    if k = id then
      (k, ⟨st.totalTime + dur, st.segmentCount + 1, st.totalConfidence + conf⟩) :: rest
    else
      (k, st) :: statUpsert rest id dur conf

/-- The `segments.forEach` accumulation of `updateSpeakerStatistics`. -/
def buildSpeakerStats (segments : List TranscriptSegment) : List (String × SpeakerStat) :=
  segments.foldl (fun acc seg => statUpsert acc seg.speaker (seg.endTime - seg.startTime) seg.confidence) []

/-- The `speakerStats[speaker.id]` lookup. -/
def lookupStat (stats : List (String × SpeakerStat)) (id : String) : Option SpeakerStat :=
  (stats.find? fun p => p.1 = id).map (·.2)

/-- JS `Math.round` (round half toward positive infinity). -/
def jsRound (q : ℚ) : ℤ := ⌊q + 1/2⌋

/-- Source method `transcriptSchema.methods.updateSpeakerStatistics`, as a function from the
segment and speaker lists to the updated speaker list. -/
def updateSpeakerStatistics (segments : List TranscriptSegment)
    (speakers : List TranscriptSpeaker) : List TranscriptSpeaker :=
  let stats := buildSpeakerStats segments
  speakers.map fun sp =>
    match lookupStat stats sp.id with
    | some st =>
      { sp with
          totalSpeakingTime := (jsRound st.totalTime : ℚ)
          segmentCount := st.segmentCount
          averageConfidence := (jsRound (st.totalConfidence / (st.segmentCount : ℚ)) : ℚ) }
    | none =>
      { sp with totalSpeakingTime := 0, segmentCount := 0, averageConfidence := 0 }

/-- Sum of `endTime - startTime` over one speaker's segments. -/
def sumDurations (segments : List TranscriptSegment) (id : String) : ℚ :=
  ((segments.filter fun s => s.speaker = id).map fun s => s.endTime - s.startTime).sum

/-! ### Transcription job controller (TranscriptionController)

`startTranscription` creates the transcript record directly in status
`processing` (there is no `queued` status in the schema enum
`['pending','processing','completed','failed','cancelled']`); when a
transcript for the meeting already exists it answers 409 unless the existing
record's status is `failed`, in which case the same record is reset to
`processing`.

`processTranscriptionJob` runs the whole pipeline inside one `try`:
transcript lookup, `processAudioFile`, `getServiceConfig`, one provider call
through the service `switch`, then the `completed` writes; any thrown error
lands in the single `catch`, which writes status `failed` with the error
message to the transcript, the job key and the meeting.  It contains no
requeue, no attempt counter and no backoff. -/

/-- Transcript schema status enum. -/
inductive TranscriptStatus
  | pending
  | processing
  | completed
  | failed
  | cancelled
  deriving DecidableEq, Repr

/-- The status transition performed by `startTranscription` once its guards
pass, as a function of the meeting's existing transcript status: a conflict
response for any existing non-failed transcript, otherwise the (new or reset)
record is saved in `processing`. -/
def startTranscriptionStatus (existing : Option TranscriptStatus) :
    Except String TranscriptStatus :=
  match existing with
  | some st =>
    if st = .failed then .ok .processing
    else .error "Transcription already exists or in progress"
  | none => .ok .processing

/-- The collaborator outcomes a single `processTranscriptionJob` run can
observe: whether the transcript record exists, the `processAudioFile`
outcome, the requested service name, and the outcome of the one provider
call. -/
structure JobEnv where
  service : String
  transcriptExists : Bool
  audioResult : Except String Unit
  providerResult : Except String TranscriptionResultRec
  deriving Repr

/-- The externally visible effects of one `processTranscriptionJob` run: the
final statuses written to the job key, the transcript record and the meeting,
the recorded error message, the number of provider calls made, and the number
of requeue (`lpush`) operations performed during the run. -/
structure JobRunResult where
  jobStatus : String
  transcriptStatus : String
  meetingStatus : String
  errorRecorded : Option String
  providerCalls : ℕ
  requeues : ℕ
  deriving DecidableEq, Repr

/-- The service names that are keys of `sttServices` (and the cases of the
provider `switch`). -/
def knownSTTServices : List String := ["fpt", "whisper", "google", "azure"]

/-- The `catch` block of `processTranscriptionJob`: transcript, job key and
meeting are all written to `failed` with the error message recorded. -/
def jobCatch (e : String) (calls : ℕ) : JobRunResult :=
  { jobStatus := "failed"
    transcriptStatus := "failed"
    meetingStatus := "failed"
    errorRecorded := some e
    providerCalls := calls
    requeues := 0 }

/-- Source method `TranscriptionController.processTranscriptionJob`.  The body performs no
`lpush` and keeps no attempt counter, so `requeues` is always `0` and at most
one provider call is made. -/
def processTranscriptionJob (env : JobEnv) : JobRunResult :=
  if env.transcriptExists = false then
    jobCatch "Transcript record not found" 0
  else
    match env.audioResult with
    | .error e => jobCatch e 0
    | .ok _ =>
      if knownSTTServices.contains env.service then
        match env.providerResult with
        | .error e => jobCatch e 1
        | .ok _ =>
          { jobStatus := "completed"
            transcriptStatus := "completed"
            meetingStatus := "transcribed"
            errorRecorded := none
            providerCalls := 1
            requeues := 0 }
      else
        jobCatch ("Service " ++ env.service ++ " not found in stt services") 0

/-! ### Helper lemmas -/

/-- A missing `type` field never equals the break marker tag. -/
theorem optNoneNeSome (x : String) : ((none : Option String) = some x) = False :=
  eq_false (fun h => Option.noConfusion h)

theorem limitsOK_eq_spec (limits : STTLimits) (hm : limits.maxDuration ≠ some 0)
    (fileSize duration : ℚ) :
    limitsOK limits fileSize duration = limitsOKSpec limits fileSize duration := by
  unfold limitsOK limitsOKSpec
  cases h : limits.maxDuration with
  | none => rfl
  | some m =>
    have hm0 : m ≠ 0 := by rintro rfl; exact hm h
    simp [hm0]

theorem addBreaksAux_cons (x : Segment) (xs : List Segment) (i : ℕ) (th : ℚ) :
    ∃ ys, addBreaksAux (x :: xs) i th = x :: ys := by
  cases xs with
  | nil => exact ⟨[], rfl⟩
  | cons t rest =>
    by_cases h : t.startTime - x.endTime > th
    · exact ⟨mkBreak i x t :: addBreaksAux (t :: rest) (i + 1) th, by
        simp [addBreaksAux, h]⟩
    · exact ⟨addBreaksAux (t :: rest) (i + 1) th, by simp [addBreaksAux, h]⟩

theorem addBreaksAux_between (s t : Segment) (th : ℚ) :
    ∀ (pre post : List Segment) (i : ℕ),
      (t.startTime - s.endTime > th →
        List.IsInfix [s, mkBreak (i + pre.length) s t, t]
          (addBreaksAux (pre ++ s :: t :: post) i th)) ∧
      (¬ t.startTime - s.endTime > th →
        List.IsInfix [s, t] (addBreaksAux (pre ++ s :: t :: post) i th)) := by
  intro pre
  induction pre with
  | nil =>
    intro post i
    constructor
    · intro hgap
      obtain ⟨ys, hys⟩ := addBreaksAux_cons t post (i + 1) th
      simp only [List.nil_append, List.length_nil, Nat.add_zero]
      rw [show addBreaksAux (s :: t :: post) i th =
            s :: mkBreak i s t :: addBreaksAux (t :: post) (i + 1) th by
          simp [addBreaksAux, hgap], hys]
      exact ⟨[], ys, rfl⟩
    · intro hgap
      obtain ⟨ys, hys⟩ := addBreaksAux_cons t post (i + 1) th
      simp only [List.nil_append]
      rw [show addBreaksAux (s :: t :: post) i th =
            s :: addBreaksAux (t :: post) (i + 1) th by simp [addBreaksAux, hgap], hys]
      exact ⟨[], ys, rfl⟩
  | cons p pre' ih =>
    intro post i
    have htail : ∃ d rest, pre' ++ s :: t :: post = d :: rest := by
      cases pre' with
      | nil => exact ⟨s, t :: post, rfl⟩
      | cons q pre'' => exact ⟨q, pre'' ++ s :: t :: post, rfl⟩
    obtain ⟨d, rest, hd⟩ := htail
    have hidx : i + 1 + pre'.length = i + (p :: pre').length := by
      simp [List.length_cons]; omega
    constructor
    · intro hgap
      have hih := (ih post (i + 1)).1 hgap
      rw [hidx, hd] at hih
      rw [List.cons_append, hd]
      by_cases h2 : d.startTime - p.endTime > th
      · rw [show addBreaksAux (p :: d :: rest) i th =
              p :: mkBreak i p d :: addBreaksAux (d :: rest) (i + 1) th by
            simp [addBreaksAux, h2]]
        exact List.infix_cons (List.infix_cons hih)
      · rw [show addBreaksAux (p :: d :: rest) i th =
              p :: addBreaksAux (d :: rest) (i + 1) th by simp [addBreaksAux, h2]]
        exact List.infix_cons hih
    · intro hgap
      have hih := (ih post (i + 1)).2 hgap
      rw [hd] at hih
      rw [List.cons_append, hd]
      by_cases h2 : d.startTime - p.endTime > th
      · rw [show addBreaksAux (p :: d :: rest) i th =
              p :: mkBreak i p d :: addBreaksAux (d :: rest) (i + 1) th by
            simp [addBreaksAux, h2]]
        exact List.infix_cons (List.infix_cons hih)
      · rw [show addBreaksAux (p :: d :: rest) i th =
              p :: addBreaksAux (d :: rest) (i + 1) th by simp [addBreaksAux, h2]]
        exact List.infix_cons hih

/-- Insert-or-update of one observation into an optional accumulator entry. -/
def optUpd (o : Option SpeakerStat) (dur conf : ℚ) : SpeakerStat :=
  match o with
  | none => ⟨dur, 1, conf⟩
  | some st => ⟨st.totalTime + dur, st.segmentCount + 1, st.totalConfidence + conf⟩

theorem lookupStat_statUpsert (acc : List (String × SpeakerStat)) (j id : String)
    (d c : ℚ) :
    lookupStat (statUpsert acc j d c) id =
      if j = id then some (optUpd (lookupStat acc j) d c) else lookupStat acc id := by
  induction acc with
  | nil =>
    by_cases h : j = id <;> simp [statUpsert, lookupStat, List.find?, h, optUpd]
  | cons p rest ih =>
    obtain ⟨k, st⟩ := p
    by_cases hkj : k = j
    · subst hkj
      by_cases hki : k = id <;>
        simp [statUpsert, lookupStat, List.find?, hki, optUpd]
    · by_cases hki : k = id
      · subst hki
        have hji : ¬ j = k := fun e => hkj e.symm
        simp [statUpsert, lookupStat, List.find?, hkj, hji]
      · by_cases hji : j = id
        · simp only [statUpsert, if_neg hkj, if_pos hji]
          have h1 : lookupStat ((k, st) :: statUpsert rest j d c) id =
              lookupStat (statUpsert rest j d c) id := by
            simp [lookupStat, List.find?, hki]
          have h2 : lookupStat ((k, st) :: rest) j = lookupStat rest j := by
            have : ¬ k = j := hkj
            simp [lookupStat, List.find?, this]
          rw [h1, ih, if_pos hji, h2]
        · simp only [statUpsert, if_neg hkj, if_neg hji]
          have h1 : lookupStat ((k, st) :: statUpsert rest j d c) id =
              lookupStat (statUpsert rest j d c) id := by
            simp [lookupStat, List.find?, hki]
          have h2 : lookupStat ((k, st) :: rest) id = lookupStat rest id := by
            simp [lookupStat, List.find?, hki]
          rw [h1, ih, if_neg hji, h2]

/-- One observation step on the optional accumulator entry. -/
def obsStep (o : Option SpeakerStat) (s : TranscriptSegment) : Option SpeakerStat :=
  some (optUpd o (s.endTime - s.startTime) s.confidence)

theorem lookupStat_foldl (segs : List TranscriptSegment) :
    ∀ (acc : List (String × SpeakerStat)) (id : String),
      lookupStat (segs.foldl (fun a seg =>
          statUpsert a seg.speaker (seg.endTime - seg.startTime) seg.confidence) acc) id =
        (segs.filter fun s => s.speaker = id).foldl obsStep (lookupStat acc id) := by
  induction segs with
  | nil => intro acc id; rfl
  | cons s rest ih =>
    intro acc id
    simp only [List.foldl_cons]
    rw [ih]
    by_cases h : s.speaker = id
    · rw [show (List.filter (fun s => decide (s.speaker = id)) (s :: rest)) =
          s :: List.filter (fun s => decide (s.speaker = id)) rest by
        simp [List.filter, h]]
      rw [List.foldl_cons]
      rw [lookupStat_statUpsert, if_pos h]
      subst h
      rfl
    · rw [show (List.filter (fun s => decide (s.speaker = id)) (s :: rest)) =
          List.filter (fun s => decide (s.speaker = id)) rest by
        simp [List.filter, h]]
      rw [lookupStat_statUpsert, if_neg h]

theorem foldl_obsStep_some (l : List TranscriptSegment) :
    ∀ st : SpeakerStat,
      l.foldl obsStep (some st) =
        some ⟨st.totalTime + (l.map fun s => s.endTime - s.startTime).sum,
              st.segmentCount + l.length,
              st.totalConfidence + (l.map fun s => s.confidence).sum⟩ := by
  induction l with
  | nil => intro st; simp
  | cons s rest ih =>
    intro st
    simp only [List.foldl_cons, obsStep, optUpd]
    rw [ih]
    simp only [List.map_cons, List.sum_cons, List.length_cons]
    congr 1
    refine SpeakerStat.mk.injEq _ _ _ _ _ _ ▸ ?_
    constructor
    · ring
    constructor
    · omega
    · ring

theorem lookupStat_build (segs : List TranscriptSegment) (id : String) :
    lookupStat (buildSpeakerStats segs) id =
      match segs.filter (fun s => s.speaker = id) with
      | [] => none
      | s :: rest =>
        some ⟨(s.endTime - s.startTime) + (rest.map fun x => x.endTime - x.startTime).sum,
              1 + rest.length,
              s.confidence + (rest.map fun x => x.confidence).sum⟩ := by
  unfold buildSpeakerStats
  rw [lookupStat_foldl]
  have h0 : lookupStat [] id = none := rfl
  rw [h0]
  cases hf : segs.filter (fun s => s.speaker = id) with
  | nil => rfl
  | cons s rest =>
    simp only [List.foldl_cons]
    rw [show obsStep none s = some ⟨s.endTime - s.startTime, 1, s.confidence⟩ from rfl]
    rw [foldl_obsStep_some]

/-- No two adjacent whitespace characters. -/
def NoAdjWs (l : List Char) : Prop :=
  List.Chain' (fun a b => ¬(isWsJS a = true ∧ isWsJS b = true)) l

theorem collapseWs_head_nonws (d : Char) (rest : List Char) (hd : isWsJS d = false) :
    collapseWs (d :: rest) = d :: collapseWs rest := by
  cases rest with
  | nil => simp [collapseWs, hd]
  | cons e rest' => simp [collapseWs, hd]

theorem collapseWs_mem (l : List Char) :
    ∀ c ∈ collapseWs l, c = ' ' ∨ (c ∈ l ∧ isWsJS c = false) := by
  induction l with
  | nil => intro c hc; simp [collapseWs] at hc
  | cons a rest ih =>
    cases rest with
    | nil =>
      intro c hc
      by_cases ha : isWsJS a
      · simp [collapseWs, ha] at hc
        exact Or.inl hc
      · simp [collapseWs, ha] at hc
        subst hc
        exact Or.inr ⟨List.mem_singleton.mpr rfl, Bool.not_eq_true _ ▸ (by simpa using ha)⟩
    | cons d rest' =>
      intro c hc
      by_cases ha : isWsJS a
      · by_cases hd : isWsJS d
        · rw [show collapseWs (a :: d :: rest') = collapseWs (d :: rest') by
            simp [collapseWs, ha, hd]] at hc
          rcases ih c hc with h | ⟨hm, hw⟩
          · exact Or.inl h
          · exact Or.inr ⟨List.mem_cons_of_mem _ hm, hw⟩
        · rw [show collapseWs (a :: d :: rest') = ' ' :: collapseWs (d :: rest') by
            simp [collapseWs, ha, hd]] at hc
          rcases List.mem_cons.mp hc with h | h
          · exact Or.inl h
          · rcases ih c h with h' | ⟨hm, hw⟩
            · exact Or.inl h'
            · exact Or.inr ⟨List.mem_cons_of_mem _ hm, hw⟩
      · rw [show collapseWs (a :: d :: rest') = a :: collapseWs (d :: rest') by
          simp [collapseWs, ha]] at hc
        rcases List.mem_cons.mp hc with h | h
        · subst h
          exact Or.inr ⟨List.mem_cons_self _ _, by simpa using ha⟩
        · rcases ih c h with h' | ⟨hm, hw⟩
          · exact Or.inl h'
          · exact Or.inr ⟨List.mem_cons_of_mem _ hm, hw⟩

theorem collapseWs_chain (l : List Char) : NoAdjWs (collapseWs l) := by
  induction l with
  | nil => simp [collapseWs, NoAdjWs]
  | cons a rest ih =>
    cases rest with
    | nil =>
      by_cases ha : isWsJS a <;> simp [collapseWs, ha, NoAdjWs]
    | cons d rest' =>
      by_cases ha : isWsJS a
      · by_cases hd : isWsJS d
        · rw [show collapseWs (a :: d :: rest') = collapseWs (d :: rest') by
            simp [collapseWs, ha, hd]]
          exact ih
        · rw [show collapseWs (a :: d :: rest') = ' ' :: collapseWs (d :: rest') by
            simp [collapseWs, ha, hd]]
          rw [NoAdjWs, List.chain'_cons']
          refine ⟨?_, ih⟩
          intro y hy
          rw [collapseWs_head_nonws d rest' (by simpa using hd)] at hy
          simp at hy
          subst hy
          intro ⟨_, h2⟩
          exact hd h2
      · rw [show collapseWs (a :: d :: rest') = a :: collapseWs (d :: rest') by
          simp [collapseWs, ha]]
        rw [NoAdjWs, List.chain'_cons']
        refine ⟨?_, ih⟩
        intro y _
        intro ⟨h1, _⟩
        rw [show isWsJS a = false by simpa using ha] at h1
        exact Bool.noConfusion h1

theorem collapseWs_eq_self (l : List Char)
    (hws : ∀ c ∈ l, isWsJS c = true → c = ' ') (hch : NoAdjWs l) :
    collapseWs l = l := by
  induction l with
  | nil => rfl
  | cons a rest ih =>
    cases rest with
    | nil =>
      by_cases ha : isWsJS a
      · have := hws a (List.mem_singleton.mpr rfl) ha
        simp [collapseWs, ha, this]
      · simp [collapseWs, ha]
    | cons d rest' =>
      have hch' : NoAdjWs (d :: rest') := (List.chain'_cons'.mp hch).2
      have hws' : ∀ c ∈ d :: rest', isWsJS c = true → c = ' ' := by
        intro c hc; exact hws c (List.mem_cons_of_mem _ hc)
      by_cases ha : isWsJS a
      · have hd : isWsJS d = false := by
          have := (List.chain'_cons'.mp hch).1 d (by simp)
          by_contra hcon
          exact this ⟨ha, by simpa using hcon⟩
        have haeq : a = ' ' := hws a (List.mem_cons_self _ _) ha
        rw [show collapseWs (a :: d :: rest') = ' ' :: collapseWs (d :: rest') by
          simp [collapseWs, ha, hd]]
        rw [ih hws' hch', haeq]
      · rw [show collapseWs (a :: d :: rest') = a :: collapseWs (d :: rest') by
          simp [collapseWs, ha]]
        rw [ih hws' hch']

theorem dropWhile_suffix_of (p : Char → Bool) (l : List Char) :
    List.IsSuffix (l.dropWhile p) l := by
  induction l with
  | nil => exact ⟨[], rfl⟩
  | cons a rest ih =>
    by_cases h : p a
    · rw [List.dropWhile_cons_of_pos h]
      obtain ⟨t, ht⟩ := ih
      exact ⟨a :: t, by simp [ht]⟩
    · rw [List.dropWhile_cons_of_neg h]

theorem trimJS_within (l : List Char) : List.IsInfix (trimJS l) l := by
  have h1 : List.IsSuffix (trimLeftJS l) l := dropWhile_suffix_of isWsJS l
  have h2 : List.IsPrefix (trimRightJS (trimLeftJS l)) (trimLeftJS l) := by
    unfold trimRightJS
    obtain ⟨t, ht⟩ := dropWhile_suffix_of isWsJS (trimLeftJS l).reverse
    refine ⟨t.reverse, ?_⟩
    have := congrArg List.reverse ht
    simpa using this
  exact h2.isInfix.trans h1.isInfix

theorem mem_trimJS (l : List Char) (c : Char) (hc : c ∈ trimJS l) : c ∈ l :=
  (trimJS_within l).subset hc

theorem dropWhile_idem (p : Char → Bool) (l : List Char) :
    (l.dropWhile p).dropWhile p = l.dropWhile p := by
  induction l with
  | nil => rfl
  | cons a rest ih =>
    by_cases h : p a
    · rw [List.dropWhile_cons_of_pos h]; exact ih
    · rw [List.dropWhile_cons_of_neg h, List.dropWhile_cons_of_neg h]

theorem trimRightJS_idem (l : List Char) : trimRightJS (trimRightJS l) = trimRightJS l := by
  unfold trimRightJS
  rw [List.reverse_reverse, dropWhile_idem]

theorem dropWhile_of_prefix_self (p : Char → Bool) (u v : List Char)
    (hu : u.dropWhile p = u) (hpre : List.IsPrefix v u) : v.dropWhile p = v := by
  cases v with
  | nil => rfl
  | cons c w =>
    obtain ⟨t, ht⟩ := hpre
    have hc : p c = false := by
      rw [← ht] at hu
      by_contra hcon
      have hc' : p c = true := by simpa using hcon
      rw [List.cons_append, List.dropWhile_cons_of_pos hc'] at hu
      have hlen := congrArg List.length hu
      have := (List.dropWhile_sublist (l := w ++ t) p).length_le
      simp [List.length_cons, List.length_append] at hlen this
      omega
    rw [List.dropWhile_cons_of_neg (by simp [hc])]

theorem trimLeftJS_of_trimRightJS (u : List Char) (hu : trimLeftJS u = u) :
    trimLeftJS (trimRightJS u) = trimRightJS u := by
  unfold trimLeftJS at hu ⊢
  apply dropWhile_of_prefix_self isWsJS u _ hu
  unfold trimRightJS
  obtain ⟨t, ht⟩ := dropWhile_suffix_of isWsJS u.reverse
  refine ⟨t.reverse, ?_⟩
  have := congrArg List.reverse ht
  simpa using this

theorem trimJS_idem (l : List Char) : trimJS (trimJS l) = trimJS l := by
  unfold trimJS
  have h1 : trimLeftJS (trimLeftJS l) = trimLeftJS l := dropWhile_idem isWsJS l
  have h2 : trimLeftJS (trimRightJS (trimLeftJS l)) = trimRightJS (trimLeftJS l) :=
    trimLeftJS_of_trimRightJS (trimLeftJS l) h1
  rw [h2, trimRightJS_idem]

theorem cleanChars_mem_kept (x : List Char) :
    ∀ c ∈ cleanChars x, keepJS c = true := by
  intro c hc
  unfold cleanChars at hc
  have h1 := mem_trimJS _ c hc
  exact (List.mem_filter.mp h1).2

theorem cleanChars_ws_space (x : List Char) :
    ∀ c ∈ cleanChars x, isWsJS c = true → c = ' ' := by
  intro c hc hw
  unfold cleanChars at hc
  have h1 := mem_trimJS _ c hc
  have h2 := (List.mem_filter.mp h1).1
  rcases collapseWs_mem x c h2 with h | ⟨_, hnw⟩
  · exact h
  · rw [hw] at hnw; exact Bool.noConfusion hnw

theorem cleanChars_fixpoint (y : List Char)
    (hk : ∀ c ∈ y, keepJS c = true) :
    cleanChars (cleanChars y) = cleanChars y := by
  have v_kept : ∀ c ∈ collapseWs y, keepJS c = true := by
    intro c hc
    rcases collapseWs_mem y c hc with h | ⟨hm, _⟩
    · subst h; rfl
    · exact hk c hm
  have hz : cleanChars y = trimJS (collapseWs y) := by
    unfold cleanChars
    rw [List.filter_eq_self.mpr v_kept]
  have z_ws : ∀ c ∈ cleanChars y, isWsJS c = true → c = ' ' := cleanChars_ws_space y
  have z_kept : ∀ c ∈ cleanChars y, keepJS c = true := cleanChars_mem_kept y
  have z_chain : NoAdjWs (cleanChars y) := by
    rw [hz]
    exact List.Chain'.infix (collapseWs_chain y) (trimJS_within (collapseWs y))
  have h1 : collapseWs (cleanChars y) = cleanChars y :=
    collapseWs_eq_self _ z_ws z_chain
  calc cleanChars (cleanChars y)
      = trimJS (List.filter keepJS (collapseWs (cleanChars y))) := rfl
    _ = trimJS (List.filter keepJS (cleanChars y)) := by rw [h1]
    _ = trimJS (cleanChars y) := by rw [List.filter_eq_self.mpr z_kept]
    _ = trimJS (trimJS (collapseWs y)) := by rw [hz]
    _ = trimJS (collapseWs y) := trimJS_idem _
    _ = cleanChars y := hz.symm

theorem cleanChars_twice_idem (x : List Char) :
    cleanChars (cleanChars (cleanChars x)) = cleanChars (cleanChars x) :=
  cleanChars_fixpoint (cleanChars x) (cleanChars_mem_kept x)

theorem enumFrom_map_map {α β γ : Type} (f : ℕ × α → β) (g : β → γ) (gsnd : α → γ)
    (hfg : ∀ i a, g (f (i, a)) = gsnd a) :
    ∀ (n : ℕ) (l : List α), ((List.enumFrom n l).map f).map g = l.map gsnd := by
  intro n l
  induction l generalizing n with
  | nil => rfl
  | cons a rest ih => simp [List.enumFrom, ih, hfg]

theorem jobRun_status_terminal (env : JobEnv) :
    (processTranscriptionJob env).transcriptStatus = "completed" ∨
      (processTranscriptionJob env).transcriptStatus = "failed" := by
  obtain ⟨svc, te, ar, pr⟩ := env
  cases te <;> cases ar <;> cases pr <;>
    by_cases hc : svc ∈ knownSTTServices <;>
      simp [processTranscriptionJob, jobCatch, hc]

theorem jobRun_no_requeue (env : JobEnv) :
    (processTranscriptionJob env).requeues = 0 ∧
      (processTranscriptionJob env).providerCalls ≤ 1 := by
  obtain ⟨svc, te, ar, pr⟩ := env
  cases te <;> cases ar <;> cases pr <;>
    by_cases hc : svc ∈ knownSTTServices <;>
      simp [processTranscriptionJob, jobCatch, hc]

/-- Shared example segment constructor (confidence 0.9, single speaker). -/
def segEx (i : String) (a b : ℚ) (t : String) : Segment :=
  { id := i, text := t, startTime := a, endTime := b, confidence := 9/10
    speaker := "Speaker 1" }

/-- The spec's example scenario D segment list. -/
def scenarioDSegments : List Segment :=
  [segEx "0" 0 1 "a", segEx "1" 1 (3/2) "b", segEx "2" (3/2) 2 "c"]

/-- Two segments separated by a 9.5 s silence gap. -/
def gapSegments : List Segment :=
  [segEx "0" 0 (1/2) "a", segEx "1" 10 (21/2) "b"]

/-! ### Claim theorems -/

/-- C1: the spec claims a job whose provider call always raises a transient
error is requeued with exponential backoff while `attempts < maxAttempts` and
reaches `failed` only after exactly `maxAttempts` attempts.  The code has no
retry at all: one run of `processTranscriptionJob` whose provider call throws
a timeout makes exactly one provider call, performs no requeue, and writes
status `failed` with the error recorded — even though the service
configuration declares `retry.maxAttempts = 3`. -/
theorem processTranscriptionJob_transient_fails_first_attempt :
    processTranscriptionJob
        { service := "whisper"
          transcriptExists := true
          audioResult := .ok ()
          providerResult := .error "Request timeout" } =
      { jobStatus := "failed"
        transcriptStatus := "failed"
        meetingStatus := "failed"
        errorRecorded := some "Request timeout"
        providerCalls := 1
        requeues := 0 } ∧
    1 < sttRetryMaxAttempts ∧
    (∀ env : JobEnv, (processTranscriptionJob env).requeues = 0 ∧
      (processTranscriptionJob env).providerCalls ≤ 1) :=
  ⟨rfl, by norm_num [sttRetryMaxAttempts], fun env => jobRun_no_requeue env⟩

/-- C2 counterexample: `startTranscription` on a meeting whose existing
transcript is in the terminal state `failed` resets that same record to
`processing` — an operation that transitions a record out of a terminal
state, contradicting the claim. -/
theorem startTranscription_restarts_failed_cex :
    startTranscriptionStatus (some .failed) = .ok .processing ∧
      TranscriptStatus.failed ≠ TranscriptStatus.processing :=
  ⟨rfl, by decide⟩

/-- C2 amended: a transcript record is created (or reset) directly in
`processing` — there is no `queued` status; an existing non-failed transcript
blocks resubmission with a conflict; a `failed` record is reset to
`processing` by resubmission; `processTranscriptionJob` always leaves the
record `completed` or `failed`. -/
theorem transcript_status_transitions_amended :
    startTranscriptionStatus none = .ok .processing ∧
    startTranscriptionStatus (some .failed) = .ok .processing ∧
    (∀ st, st ≠ TranscriptStatus.failed →
      startTranscriptionStatus (some st) =
        .error "Transcription already exists or in progress") ∧
    (∀ env : JobEnv, (processTranscriptionJob env).transcriptStatus = "completed" ∨
      (processTranscriptionJob env).transcriptStatus = "failed") := by
  refine ⟨rfl, rfl, ?_, jobRun_status_terminal⟩
  intro st h
  cases st <;> first | rfl | exact absurd rfl h

/-- C2 amended witness at a concrete input: a `completed` transcript blocks
resubmission. -/
theorem transcript_status_transitions_amended_witness :
    startTranscriptionStatus (some .completed) =
      .error "Transcription already exists or in progress" :=
  transcript_status_transitions_amended.2.2.1 .completed (by decide)

/-- C3: for any registry state whose declared duration ceilings are not the
degenerate value `0` (true of the shipped registry), `getBestSTTService` is
exactly the spec's procedure: filter to enabled providers, then to providers
supporting the language or `auto`, then to providers within their size and
duration ceilings; return the first name of `[fpt, whisper, google, azure]`
among the survivors, else the first survivor; fail when none survive. -/
theorem getBestSTTService_matches_spec (services : List STTServiceEntry)
    (hm : ∀ s ∈ services, s.limits.maxDuration ≠ some 0)
    (language : String) (fileSize duration : ℚ) :
    getBestSTTService services language fileSize duration =
      selectProviderSpec services language fileSize duration := by
  unfold getBestSTTService selectProviderSpec getAvailableSTTServices
  dsimp only
  rw [List.filter_filter, List.filter_filter]
  have hfe : services.filter
      (fun s => limitsOK s.limits fileSize duration &&
        langCompatible s.languages language && s.enabled) =
      services.filter (fun s =>
        s.enabled && langCompatible s.languages language &&
          limitsOKSpec s.limits fileSize duration) := by
    apply List.filter_congr
    intro s hs
    rw [limitsOK_eq_spec s.limits (hm s hs)]
    cases s.enabled <;> cases langCompatible s.languages language <;>
      cases limitsOKSpec s.limits fileSize duration <;> rfl
  rw [hfe]
  cases hsv : services.filter (fun s =>
      s.enabled && langCompatible s.languages language &&
        limitsOKSpec s.limits fileSize duration) with
  | nil => simp [priorityOrder, List.find?]
  | cons s0 rest =>
    cases hf : priorityOrder.find? (fun n => (s0 :: rest).any fun s => s.name == n) with
    | none => simp [hf]
    | some n => simp [hf]

/-- C3 witness at the shipped registry with every provider enabled. -/
theorem getBestSTTService_matches_spec_witness :
    getBestSTTService (mkSttServices true true true true) "en" 1000 1200 =
      selectProviderSpec (mkSttServices true true true true) "en" 1000 1200 :=
  getBestSTTService_matches_spec (mkSttServices true true true true)
    (by intro s hs; fin_cases hs <;> simp [mkSttServices])
    "en" 1000 1200

/-- C4 counterexample: on the spec's scenario D input with
`minDurationSeconds = 1` the code returns two segments
`[{0,1,"a"}, {1,2,"b c"}]`, not the claimed single segment `{0,2,"a b c"}`:
the first segment's duration equals the threshold, so by the claim's own
closing rule it is not merged. -/
theorem mergeShortSegments_scenarioD_cex :
    (mergeShortSegments scenarioDSegments 1).map
        (fun s => (s.startTime, s.endTime, s.text)) =
      [(0, 1, "a"), (1, 2, "b c")] ∧
    ([((0:ℚ), (1:ℚ), "a"), (1, 2, "b c")] ≠ [((0:ℚ), (2:ℚ), "a b c")]) := by
  constructor
  · norm_num [mergeShortSegments, mergeAux, scenarioDSegments, segEx, optNoneNeSome]
    rfl
  · simp

/-- C4 amended: consecutive non-break segments strictly shorter than the
threshold are coalesced into the running segment (text joined by one space,
`endTime` extended, confidence pairwise averaged) and any segment at or above
the threshold flushes the running merge; hence scenario D with threshold 1
yields `[{0,1,"a"}, {1,2,"b c"}]`. -/
theorem mergeShortSegments_amended :
    ((mergeShortSegments scenarioDSegments 1).map
        (fun s => (s.startTime, s.endTime, s.text)) =
      [(0, 1, "a"), (1, 2, "b c")]) ∧
    (∀ (md : ℚ) (c s : Segment) (rest : List Segment),
      ¬(s.endTime - s.startTime < md ∧ s.type ≠ some "paragraph_break") →
      mergeAux md (some c) (s :: rest) = c :: s :: mergeAux md none rest) ∧
    (∀ (md : ℚ) (c s : Segment) (rest : List Segment),
      s.endTime - s.startTime < md → s.type ≠ some "paragraph_break" →
      mergeAux md (some c) (s :: rest) =
        mergeAux md (some { c with
          text := c.text ++ " " ++ s.text
          endTime := s.endTime
          confidence := (c.confidence + s.confidence) / 2 }) rest) := by
  refine ⟨?_, ?_, ?_⟩
  · norm_num [mergeShortSegments, mergeAux, scenarioDSegments, segEx, optNoneNeSome]
    rfl
  · intro md c s rest h
    simp only [mergeAux, if_neg h]
  · intro md c s rest h1 h2
    simp only [mergeAux, if_pos (And.intro h1 h2)]

/-- C4 amended witness at concrete inputs: the scenario D evaluation, one
flush step (duration 2 ≥ threshold 1) and one absorb step (duration 1/2 <
threshold 1). -/
theorem mergeShortSegments_amended_witness :
    ((mergeShortSegments scenarioDSegments 1).map
        (fun s => (s.startTime, s.endTime, s.text)) =
      [(0, 1, "a"), (1, 2, "b c")]) ∧
    mergeAux 1 (some (segEx "0" 0 1 "a")) [segEx "1" 1 3 "x"] =
      segEx "0" 0 1 "a" :: segEx "1" 1 3 "x" :: mergeAux 1 none [] ∧
    mergeAux 1 (some (segEx "0" 0 1 "a")) [segEx "1" 1 (3/2) "b"] =
      mergeAux 1 (some { segEx "0" 0 1 "a" with
        text := (segEx "0" 0 1 "a").text ++ " " ++ (segEx "1" 1 (3/2) "b").text
        endTime := (segEx "1" 1 (3/2) "b").endTime
        confidence := ((segEx "0" 0 1 "a").confidence +
          (segEx "1" 1 (3/2) "b").confidence) / 2 }) [] :=
  ⟨mergeShortSegments_amended.1,
   mergeShortSegments_amended.2.1 1 (segEx "0" 0 1 "a") (segEx "1" 1 3 "x") []
     (by norm_num [segEx]),
   mergeShortSegments_amended.2.2 1 (segEx "0" 0 1 "a") (segEx "1" 1 (3/2) "b") []
     (by norm_num [segEx]) (by simp [segEx])⟩

/-- Concrete FPT response whose single utterance carries no confidence. -/
def fptNoConfResponse : FPTResponse :=
  { hypotheses := [{ transcript := "hello"
                     confidence := none
                     utterances := some [{ transcript := "hello"
                                           startTime := some 0
                                           endTime := some 1
                                           confidence := none
                                           speaker := none
                                           words := none }] }] }

/-- C5 counterexample: an FPT utterance with no confidence is parsed with
confidence 0.5, not the claimed universal default of 0.8. -/
theorem parseFPT_confidence_default_cex :
    (parseFPTResponse fptNoConfResponse).map Segment.confidence = [1/2] ∧
      ((1:ℚ)/2) ≠ 4/5 := by
  constructor
  · norm_num [parseFPTResponse, fptNoConfResponse, jsOrQ, List.enum, List.enumFrom]
  · norm_num

/-- C5 amended: segment confidence is provider-native when present and
truthy; Whisper converts a present nonzero `avg_logprob` with `Math.exp` and
defaults to 0.8 otherwise; FPT and Azure default to 0.5, not 0.8, when the
provider confidence is absent (or 0, for FPT). -/
theorem parser_confidence_amended :
    (∀ (mexp : ℚ → ℚ) (data : WhisperResponse) (ss : List WhisperSegment),
        data.segments = some ss →
        (parseWhisperResponse mexp data).map Segment.confidence =
          ss.map (fun s =>
            match s.avg_logprob with
            | some l => if l = 0 then 4/5 else mexp l
            | none => 4/5)) ∧
    (∀ (mexp : ℚ → ℚ) (data : WhisperResponse), data.segments = none →
        (parseWhisperResponse mexp data).map Segment.confidence = [4/5]) ∧
    (∀ (data : FPTResponse) (h : FPTHypothesis) (hs : List FPTHypothesis)
        (us : List FPTUtterance), data.hypotheses = h :: hs → h.utterances = some us →
        (parseFPTResponse data).map Segment.confidence =
          us.map (fun u => jsOrQ u.confidence (1/2))) ∧
    (∀ (data : FPTResponse) (h : FPTHypothesis) (hs : List FPTHypothesis),
        data.hypotheses = h :: hs → h.utterances = none →
        (parseFPTResponse data).map Segment.confidence = [jsOrQ h.confidence (1/2)]) ∧
    (∀ result : AzureResult, (parseAzureResult result).confidence =
        match result.json with
        | some j => j.confidence
        | none => 1/2) := by
  refine ⟨?_, ?_, ?_, ?_, fun result => rfl⟩
  · intro mexp data ss h
    unfold parseWhisperResponse
    rw [h]
    exact enumFrom_map_map _ Segment.confidence _ (fun i a => rfl) 0 ss
  · intro mexp data h
    unfold parseWhisperResponse
    rw [h]
    rfl
  · intro data h hs us hh hu
    unfold parseFPTResponse
    rw [hh]
    dsimp only
    rw [hu]
    exact enumFrom_map_map _ Segment.confidence _ (fun i a => rfl) 0 us
  · intro data h hs hh hu
    unfold parseFPTResponse
    rw [hh]
    dsimp only
    rw [hu]
    rfl

/-- C5 amended witness at concrete responses: a Whisper segment with
`avg_logprob = -1` under the interpretation `mexp = id`, the no-confidence
FPT response, and an Azure result without a parsed JSON payload. -/
theorem parser_confidence_amended_witness :
    (parseWhisperResponse (fun x => x)
        { text := "hi"
          segments := some [{ text := "hi"
                              start := 0
                              stop := 1
                              avg_logprob := some (-1)
                              words := none }] }).map Segment.confidence = [(-1 : ℚ)] ∧
    (parseFPTResponse fptNoConfResponse).map Segment.confidence = [1/2] ∧
    (parseAzureResult { text := "x"
                        offset := 0
                        duration := 10000000
                        json := none }).confidence = 1/2 :=
  ⟨(parser_confidence_amended.1 (fun x => x) _ _ rfl).trans (by norm_num),
   (parser_confidence_amended.2.2.1 fptNoConfResponse _ [] _ rfl rfl).trans
     (by norm_num [jsOrQ]),
   (parser_confidence_amended.2.2.2.2 _).trans rfl⟩

/-- C6 counterexample: on two short segments separated by a 9.5 s gap, the
code's pipeline (clean, then insert breaks, then merge) keeps them apart with
a break marker, while the claimed order (clean, then merge, then insert
breaks) would merge them into one segment — the two orders disagree, so the
pipeline does not merge before inserting breaks. -/
theorem postProcess_order_cex :
    (postProcessTranscription { segments := gapSegments, text := "a b" } {}).segments ≠
      addParagraphBreaks (mergeShortSegments (gapSegments.map cleanSegment) 2) 3 := by
  norm_num [postProcessTranscription, addParagraphBreaks, addBreaksAux,
    mergeShortSegments, mergeAux, gapSegments, segEx, cleanSegment,
    cleanTranscriptText, cleanChars, mkBreak, optNoneNeSome, Segment.mk.injEq]

/-- C6 amended: with default options the pipeline applies clean text, then
paragraph-break insertion (threshold 3), then short-segment merging
(minimum duration 2) — break insertion comes before merging, not after. -/
theorem postProcess_order_amended (result : TranscriptionResultRec) :
    (postProcessTranscription result {}).segments =
      mergeShortSegments (addParagraphBreaks (result.segments.map cleanSegment) 3) 2 :=
  rfl

/-- C7 counterexample: the inserted paragraph-break marker carries the text
`"\n\n"`, not the claimed empty text. -/
theorem paragraph_break_text_cex :
    (addParagraphBreaks gapSegments 3).map (fun s => (s.type, s.text)) =
      [(none, "a"), (some "paragraph_break", "\n\n"), (none, "b")] ∧
    ("\n\n" : String) ≠ "" := by
  constructor
  · norm_num [addParagraphBreaks, addBreaksAux, gapSegments, segEx, mkBreak]
  · decide

/-- C7 amended: whenever the gap between adjacent segments `s, t` exceeds the
threshold, the output contains, between `s` and `t`, a marker of type
`paragraph_break` spanning from `s.endTime` to `t.startTime` whose text is
the whitespace string `"\n\n"` (not empty text); when the gap does not exceed
the threshold, `s` is still immediately followed by `t`. -/
theorem addParagraphBreaks_amended (pre post : List Segment) (s t : Segment) (th : ℚ) :
    (t.startTime - s.endTime > th →
      ∃ m, List.IsInfix [s, m, t] (addParagraphBreaks (pre ++ s :: t :: post) th) ∧
        m.type = some "paragraph_break" ∧ m.startTime = s.endTime ∧
        m.endTime = t.startTime ∧ m.text = "\n\n") ∧
    (¬ t.startTime - s.endTime > th →
      List.IsInfix [s, t] (addParagraphBreaks (pre ++ s :: t :: post) th)) := by
  constructor
  · intro hgap
    exact ⟨mkBreak (0 + pre.length) s t,
      (addBreaksAux_between s t th pre post 0).1 hgap, rfl, rfl, rfl, rfl⟩
  · intro hgap
    exact (addBreaksAux_between s t th pre post 0).2 hgap

/-- C7 amended witness: the gap segments (gap 9.5 > 3) receive a marker. -/
theorem addParagraphBreaks_amended_witness :
    ∃ m, List.IsInfix [segEx "0" 0 (1/2) "a", m, segEx "1" 10 (21/2) "b"]
        (addParagraphBreaks gapSegments 3) ∧
      m.type = some "paragraph_break" ∧ m.startTime = (segEx "0" 0 (1/2) "a").endTime ∧
      m.endTime = (segEx "1" 10 (21/2) "b").startTime ∧ m.text = "\n\n" :=
  (addParagraphBreaks_amended [] [] (segEx "0" 0 (1/2) "a") (segEx "1" 10 (21/2) "b") 3).1
    (by norm_num [segEx])

/-- C8 counterexample: an unsupported language and an oversized file produce
the identical error value — the thrown error is one fixed message and carries
no filtering reason distinguishing the causes. -/
theorem noSuitableProvider_reason_cex :
    getBestSTTService (mkSttServices true false false false) "de" 0 0 =
      .error noSuitableMsg ∧
    getBestSTTService (mkSttServices true false false false) "vi-VN" 209715200 0 =
      .error noSuitableMsg ∧
    langCompatible ["vi-VN", "en-US"] "de" = false ∧
    langCompatible ["vi-VN", "en-US"] "vi-VN" = true ∧
    ¬ ((209715200 : ℚ) ≤ 104857600) := by
  refine ⟨?_, ?_, by decide, by decide, by norm_num⟩
  · norm_num [getBestSTTService, mkSttServices, getAvailableSTTServices,
      langCompatible, limitsOK, List.filter, List.contains, List.find?, List.any,
      priorityOrder, noSuitableMsg]
  · norm_num [getBestSTTService, mkSttServices, getAvailableSTTServices,
      langCompatible, limitsOK, List.filter, List.contains, List.find?, List.any,
      priorityOrder, noSuitableMsg]

/-- C8 amended: when no provider survives the three filters the selection
fails, but with the single fixed message
"No suitable STT service available for the given requirements" — no reason is
attached. -/
theorem noSuitableProvider_error_amended (services : List STTServiceEntry)
    (language : String) (fileSize duration : ℚ)
    (h : ((getAvailableSTTServices services).filter
        (fun s => langCompatible s.languages language)).filter
          (fun s => limitsOK s.limits fileSize duration) = []) :
    getBestSTTService services language fileSize duration = .error noSuitableMsg := by
  unfold getBestSTTService
  dsimp only
  rw [h]

/-- C8 amended witness: with every provider disabled nothing survives. -/
theorem noSuitableProvider_error_amended_witness :
    getBestSTTService (mkSttServices false false false false) "en" 0 0 =
      .error noSuitableMsg :=
  noSuitableProvider_error_amended (mkSttServices false false false false) "en" 0 0 rfl

/-- Concrete one-segment transcript: speaker s1 speaks from 0 s to 0.5 s. -/
def halfSecondSegment : TranscriptSegment :=
  { speaker := "s1", startTime := 0, endTime := 1/2, confidence := 9/10 }

/-- Concrete speaker record before statistics are recomputed. -/
def speakerS1 : TranscriptSpeaker :=
  { id := "s1", totalSpeakingTime := 99, segmentCount := 0, averageConfidence := 0 }

/-- C9 counterexample: for a single 0.5 s segment the recomputed
`totalSpeakingTime` is `Math.round(0.5) = 1`, while the sum of the speaker's
segment durations is 0.5 — off by 0.5, far beyond floating-point tolerance,
because the source rounds the total to a whole number. -/
theorem speaker_totalTime_rounding_cex :
    (updateSpeakerStatistics [halfSecondSegment] [speakerS1]).map
        (fun sp => sp.totalSpeakingTime) = [1] ∧
    sumDurations [halfSecondSegment] "s1" = 1/2 ∧
    ((1:ℚ) ≠ 1/2) := by
  refine ⟨?_, ?_, by norm_num⟩
  · norm_num [updateSpeakerStatistics, buildSpeakerStats, statUpsert, lookupStat,
      jsRound, List.find?, halfSecondSegment, speakerS1]
  · norm_num [sumDurations, halfSecondSegment]

/-- C9 amended: after `updateSpeakerStatistics`, every speaker's
`totalSpeakingTime` equals the sum of `endTime - startTime` over that
speaker's segments rounded to the nearest whole number with `Math.round`
(speakers without segments keep the reset value 0 = round of the empty
sum). -/
theorem updateSpeakerStatistics_totalTime (segments : List TranscriptSegment)
    (speakers : List TranscriptSpeaker) (sp : TranscriptSpeaker)
    (hsp : sp ∈ updateSpeakerStatistics segments speakers) :
    sp.totalSpeakingTime = (jsRound (sumDurations segments sp.id) : ℚ) := by
  unfold updateSpeakerStatistics at hsp
  obtain ⟨sp0, _, hmap⟩ := List.mem_map.mp hsp
  rw [lookupStat_build] at hmap
  cases hf : segments.filter (fun s => s.speaker = sp0.id) with
  | nil =>
    rw [hf] at hmap
    have hid : sp.id = sp0.id := by rw [← hmap]
    have htot : sp.totalSpeakingTime = 0 := by rw [← hmap]
    rw [htot, hid]
    unfold sumDurations
    rw [hf]
    simp [jsRound]
    norm_num
  | cons s rest =>
    rw [hf] at hmap
    have hid : sp.id = sp0.id := by rw [← hmap]
    have htot : sp.totalSpeakingTime =
        (jsRound ((s.endTime - s.startTime) +
          (rest.map fun x => x.endTime - x.startTime).sum) : ℚ) := by rw [← hmap]
    rw [htot, hid]
    unfold sumDurations
    rw [hf]
    simp

/-- C9 amended witness: the updated record for the 0.5 s segment. -/
theorem updateSpeakerStatistics_totalTime_witness :
    ({ id := "s1", totalSpeakingTime := 1, segmentCount := 1, averageConfidence := 1 } :
        TranscriptSpeaker).totalSpeakingTime =
      (jsRound (sumDurations [halfSecondSegment] "s1") : ℚ) :=
  updateSpeakerStatistics_totalTime [halfSecondSegment] [speakerS1] _
    (by
      rw [show updateSpeakerStatistics [halfSecondSegment] [speakerS1] =
          [{ id := "s1", totalSpeakingTime := 1, segmentCount := 1,
             averageConfidence := 1 }] from by
        norm_num [updateSpeakerStatistics, buildSpeakerStats, statUpsert, lookupStat,
          jsRound, List.find?, halfSecondSegment, speakerS1]]
      exact List.mem_singleton.mpr rfl)

/-- C10 counterexample: cleaning is not idempotent: removing the symbol `+`
from "a + b" leaves two adjacent spaces, which only a second pass collapses:
`clean "a + b" = "a  b"` but `clean (clean "a + b") = "a b"`. -/
theorem cleanTranscriptText_idempotent_cex :
    cleanTranscriptText (cleanTranscriptText "a + b") ≠ cleanTranscriptText "a + b" := by
  decide

/-- C10 amended: cleaning stabilises after two passes: for every string `s`,
`cleanTranscriptText (cleanTranscriptText (cleanTranscriptText s)) =
cleanTranscriptText (cleanTranscriptText s)`; a single pass is not idempotent
because character removal can create new whitespace runs. -/
theorem cleanTranscriptText_twice_idempotent (s : String) :
    cleanTranscriptText (cleanTranscriptText (cleanTranscriptText s)) =
      cleanTranscriptText (cleanTranscriptText s) :=
  congrArg String.mk (cleanChars_twice_idem s.data)
